import Mathlib

/-!
Verification of the harmonizer repository: the MelodyNet fixed-weight
construction (src/models/mnet.py) and the recurrent playback driver
(src/utils/play.py), shallowly embedded over rationals.

Python strings are embedded as lists of characters, so that Python
slicing becomes List.take and List.dropLast.  Machine floats are
embedded as exact rationals.  Python exceptions are embedded as an
Except error type.
-/

/-- Python strings as lists of characters. -/
abbrev PyStr := List Char

/-- Exceptions raised (or claimed to be raised) by the embedded code.
TypeError models iterating over None; IndexError models indexing a
string past its end; ConfigurationError is the error class the spec
names for a malformed vocabulary (no such class exists in the code). -/
inductive PyError where
  | typeError
  | indexError
  | configurationError
deriving DecidableEq, Repr

instance {ε α : Type} [DecidableEq ε] [DecidableEq α] : DecidableEq (Except ε α) := fun
  | .error e, .error f => decidable_of_iff (e = f) (by simp)
  | .error _, .ok _ => Decidable.isFalse (by simp)
  | .ok _, .error _ => Decidable.isFalse (by simp)
  | .ok a, .ok b => decidable_of_iff (a = b) (by simp)

set_option maxRecDepth 100000

namespace Harmonizer

/-- mnet.py line 126: the 12 chromatic note names. -/
def chromatic_notes : List PyStr :=
  [['A'], ['A', '#'], ['B'], ['C'], ['C', '#'], ['D'], ['D', '#'],
   ['E'], ['F'], ['F', '#'], ['G'], ['G', '#']]

/-- mnet.py line 127: the 7 chord type suffixes. -/
def chord_types : List PyStr :=
  [['m', 'a', 'j'], ['m', 'i', 'n'], ['d', 'i', 'm'],
   ['m', 'a', 'j', '7'], ['m', 'i', 'n', '7'], ['d', 'o', 'm', '7'],
   ['m', 'i', 'n', '7', 'b', '5']]

/-- mnet.py line 130: the 84 chord labels, note-major order. -/
def hidden2_chords : List PyStr :=
  chromatic_notes.flatMap (fun note => chord_types.map (fun ct => note ++ ct))

/-- mnet.py line 133: rest followed by 12 copies (6 octaves times 2
lifespans) of each chromatic note name; 145 labels in total. -/
def output_notes : List PyStr :=
  [['r', 'e', 's', 't']] ++
    chromatic_notes.flatMap (fun note =>
      (List.range 6).flatMap (fun _ => (List.range 2).map (fun _ => note)))

/-- Modelled from the spec: the semitone intervals of each of the 7
chord qualities (root, third, fifth, extensions).  The table
CHORD_NOTES itself lives in utils/data/mappings.py, which is not part
of the given sources. -/
def chord_type_intervals : PyStr → List Nat
  | ['m', 'a', 'j'] => [0, 4, 7]
  | ['m', 'i', 'n'] => [0, 3, 7]
  | ['d', 'i', 'm'] => [0, 3, 6]
  | ['m', 'a', 'j', '7'] => [0, 4, 7, 11]
  | ['m', 'i', 'n', '7'] => [0, 3, 7, 10]
  | ['d', 'o', 'm', '7'] => [0, 3, 7, 10]
  | _ => [0, 3, 6, 10]

/-- Modelled from the spec: the chord-to-constituent-notes table from
utils/data/mappings.py (absent from the given sources).  Every one of
the 84 chord labels maps to the non-empty list of its constituent
notes; per the spec the stored note names carry an octave character,
which the builder strips before comparison. -/
def CHORD_NOTES_list : List (PyStr × List PyStr) :=
  (chromatic_notes.enum).flatMap (fun root =>
    chord_types.map (fun ct =>
      (root.2 ++ ct,
       (chord_type_intervals ct).map (fun k =>
         (chromatic_notes.getD ((root.1 + k) % 12) []) ++ ['4']))))

/-- Modelled from the spec: dictionary lookup CHORD_NOTES.get, which
yields None for a missing chord label. -/
def CHORD_NOTES (c : PyStr) : Option (List PyStr) :=
  CHORD_NOTES_list.lookup c

/-- A table of the same type as CHORD_NOTES: the builder is written
against any such table so that the missing-entry failure mode can be
stated. -/
abbrev ChordTable := PyStr → Option (List PyStr)

/-- mnet.py lines 143 to 148, one output-note row: for every chord of
hidden2_chords, look the chord up in the table (None propagates as a
TypeError, since the code iterates the result), and set the entry to 1
when the note name equals a chord note with its last character
stripped, else 0. -/
def rowEntries (tbl : ChordTable) (note : PyStr) : List PyStr → Except PyError (List ℚ)
  | [] => Except.ok []
  | chord :: rest =>
    match tbl chord with
    | none => Except.error PyError.typeError
    | some chord_notes =>
      match rowEntries tbl note rest with
      | Except.error e => Except.error e
      | Except.ok r =>
        Except.ok ((if chord_notes.any (fun cn => note == cn.dropLast)
                    then (1 : ℚ) else 0) :: r)

/-- mnet.py line 142: the loop over output_notes with the rest label
removed, building one row per note. -/
def noteRows (tbl : ChordTable) : List PyStr → Except PyError (List (List ℚ))
  | [] => Except.ok []
  | note :: ns =>
    match rowEntries tbl note hidden2_chords with
    | Except.error e => Except.error e
    | Except.ok r =>
      match noteRows tbl ns with
      | Except.error e => Except.error e
      | Except.ok rs => Except.ok (r :: rs)

/-- mnet.py lines 136 to 148: the full chords_to_notes matrix, row 0
(rest) set to all ones before the loop runs. -/
def chords_to_notes (tbl : ChordTable) : Except PyError (List (List ℚ)) :=
  match noteRows tbl (output_notes.drop 1) with
  | Except.error e => Except.error e
  | Except.ok rs => Except.ok (List.replicate 84 (1 : ℚ) :: rs)

/-- mnet.py line 151: normalize every row by its row sum, then scale by
melody_weights. -/
def fixed_output_weights (tbl : ChordTable) (melody_weights : ℚ) :
    Except PyError (List (List ℚ)) :=
  match chords_to_notes tbl with
  | Except.error e => Except.error e
  | Except.ok rows =>
    Except.ok (rows.map (fun r => r.map (fun x => x / r.sum * melody_weights)))

/-- mnet.py lines 103 to 107: nn.Linear gives the chord-to-hidden2
weight matrix an arbitrary (random) initialization, modelled by the
init argument; fill_diagonal_ then overwrites the diagonal with the
chord_weights scalar and leaves every off-diagonal entry at its
initial value. -/
def fill_diagonal (init : Fin 84 → Fin 84 → ℚ) (c : ℚ) : Fin 84 → Fin 84 → ℚ :=
  fun i j => if i = j then c else init i j

/-- A weight tensor together with its requires_grad flag. -/
structure LinearParam (m n : ℕ) where
  weight : Fin m → Fin n → ℚ
  requires_grad : Bool

/-- Row-major access into the built weight rows. -/
def toMatrix (rows : List (List ℚ)) : Fin 145 → Fin 84 → ℚ :=
  fun i j => (rows.getD i []).getD j 0

/-- The two weight tensors of MelodyNet that the spec calls fixed. -/
structure MelodyNetModel where
  hidden2_from_chord : LinearParam 84 84
  output : LinearParam 145 84

/-- mnet.py lines 103 to 157: construction of the two matrices.  The
hidden2_from_chord parameter keeps the nn.Linear default
requires_grad = true (the code never clears it); line 157 sets
requires_grad = false on the output parameter only. -/
def mkMelodyNet (tbl : ChordTable) (chord_weights melody_weights : ℚ)
    (init2 : Fin 84 → Fin 84 → ℚ) : Except PyError MelodyNetModel :=
  match fixed_output_weights tbl melody_weights with
  | Except.error e => Except.error e
  | Except.ok rows =>
    Except.ok { hidden2_from_chord := ⟨fill_diagonal init2 chord_weights, true⟩,
                output := ⟨toMatrix rows, false⟩ }

/-- Modelled from the spec: the external optimizer (out of scope in the
spec) performs a standard gradient step, which mutates exactly the
parameters whose requires_grad flag is set. -/
def sgd_step {m n : ℕ} (lr : ℚ) (grad : Fin m → Fin n → ℚ) (p : LinearParam m n) :
    LinearParam m n :=
  if p.requires_grad then ⟨fun i j => p.weight i j - lr * grad i j, p.requires_grad⟩
  else p

/-!  The playback driver, src/utils/play.py. -/

/-- Modelled from the spec: melody symbols open with a two-character
pitch-class code (letter plus accidental mark, a dash marking a
natural), followed by the octave character; the reference tables in
utils/data/mappings.py (absent from the given sources) are keyed by
that two-character code. -/
def pitch_enc (note : PyStr) : PyStr :=
  if note.length = 1 then note ++ ['-'] else note

/-- Modelled from the spec: NOTE_ENC_TO_IDX_REF.get, mapping each of
the 12 pitch-class codes to its chromatic index, None otherwise. -/
def NOTE_ENC_TO_IDX_REF (k : PyStr) : Option ℕ :=
  (chromatic_notes.enum.map (fun p => (pitch_enc p.2, p.1))).lookup k

/-- Modelled from the spec: NOTE_ENC_TO_NOTE_STR_REF.get, mapping each
of the 12 pitch-class codes to the pitch-class name, None otherwise. -/
def NOTE_ENC_TO_NOTE_STR_REF (k : PyStr) : Option PyStr :=
  (chromatic_notes.map (fun n => (pitch_enc n, n))).lookup k

/-- Modelled from the spec: IDX_TO_CHORD_STR_REF.get, the ChordClass
index table, mapping indices 0 to 83 to the 84 chord labels in their
fixed order, None otherwise. -/
def IDX_TO_CHORD_STR_REF (i : ℕ) : Option PyStr :=
  hidden2_chords.get? i

/-- play.py line 127: row i of a 12 by 12 identity matrix. -/
def note_enc_array (i : ℕ) : List ℚ :=
  (List.range 12).map (fun j => if j = i then 1 else 0)

/-- play.py lines 134 to 140: the melody input of one timestep; the
symbol is truncated to its first two characters and looked up; an
unrecognized code falls back to the all-zero 12-vector. -/
def note_input (note : PyStr) : List ℚ :=
  match NOTE_ENC_TO_IDX_REF (note.take 2) with
  | some i => note_enc_array i
  | none => List.replicate 12 0

/-- play.py lines 143 to 144: the 2-valued meter encoding, alternating
with the parity of the timestep. -/
def meter_units (timestep : ℕ) : List ℚ :=
  if timestep % 2 = 0 then [1, 0] else [0, 1]

/-- play.py line 147: the concatenated network input of one timestep. -/
def driver_inputs (state_units input_t meter : List ℚ) : List ℚ :=
  state_units ++ input_t ++ meter

/-- play.py lines 157 to 160: the playback string of the symbol; when
the two-character code is recognized the code at index 2 of the symbol
is appended (an IndexError when the symbol is shorter), otherwise the
result is None. -/
def note_str (note : PyStr) : Except PyError (Option PyStr) :=
  match NOTE_ENC_TO_NOTE_STR_REF (note.take 2) with
  | some s =>
    match note.get? 2 with
    | some c => Except.ok (some (s ++ [c]))
    | none => Except.error PyError.indexError
  | none => Except.ok none

/-- np.argmax helper: index of the first strict maximum, walking the
remaining list with the running best index and value. -/
def argmaxAux : List ℚ → ℕ → ℕ → ℚ → ℕ
  | [], _, besti, _ => besti
  | x :: xs, i, besti, bestv =>
    if bestv < x then argmaxAux xs (i + 1) i x
    else argmaxAux xs (i + 1) besti bestv

/-- play.py line 162: np.argmax over the logits (first index of the
maximum, 0 on the empty list). -/
def argmax : List ℚ → ℕ
  | [] => 0
  | x :: xs => argmaxAux xs 1 0 x

/-- play.py lines 162 to 163: the emitted chord label of one timestep. -/
def chord_out (logits : List ℚ) : Option PyStr :=
  IDX_TO_CHORD_STR_REF (argmax logits)

/-- torch.exp on floats is embedded as an abstract function e on the
rationals; every theorem carries the hypothesis that e is strictly
positive, the property of the exponential the code relies on.
softmax as in play.py line 153. -/
def softmax (e : ℚ → ℚ) {n : ℕ} (v : Fin n → ℚ) : Fin n → ℚ :=
  fun i => e (v i) / ∑ j, e (v j)

/-- play.py lines 153 to 154: one state update, the softmax of the
logits plus the decayed previous state, renormalized by its sum. -/
def state_update (e : ℚ → ℚ) (decay : ℚ) {n : ℕ} (state logits : Fin n → ℚ) :
    Fin n → ℚ :=
  fun i => (softmax e logits i + decay * state i) /
    ∑ j, (softmax e logits j + decay * state j)

/-- play.py lines 130 to 154: the state recurrence of play_song; the
state starts all zero and f gives the logits of timestep t as a
function of the current state (folding in the network, the song symbol
and the meter phase of that timestep). -/
def play_states (e : ℚ → ℚ) {n : ℕ} (f : ℕ → (Fin n → ℚ) → Fin n → ℚ)
    (decay : ℚ) : ℕ → Fin n → ℚ
  | 0 => fun _ => 0
  | t + 1 =>
    state_update e decay (play_states e f decay t)
      (f t (play_states e f decay t))

/-!  Helper layer: the run of the builder on the modelled table,
expressed through a Bool-level membership row so that the finite
checks stay inside decidable, kernel-reducible ground (the rational
entries themselves are handled symbolically). -/

/-- Membership row of one note over a chord list: true where the note
belongs to the chord per the table, false elsewhere (and false for a
missing table entry, a case excluded where this is used). -/
def rowBool (tbl : ChordTable) (note : PyStr) (cs : List PyStr) : List Bool :=
  cs.map (fun c =>
    match tbl c with
    | some ns => ns.any (fun cn => note == cn.dropLast)
    | none => false)

/-- The rational row of one note, as the builder produces it. -/
def qRow (note : PyStr) : List ℚ :=
  (rowBool CHORD_NOTES note hidden2_chords).map (fun b => if b then (1 : ℚ) else 0)

/-- The matrix the builder produces on the modelled table. -/
def rawRows : List (List ℚ) :=
  List.replicate 84 (1 : ℚ) :: (output_notes.drop 1).map qRow

lemma rowEntries_eq_of_total (tbl : ChordTable) (note : PyStr) :
    ∀ cs : List PyStr, (∀ c ∈ cs, tbl c ≠ none) →
      rowEntries tbl note cs =
        Except.ok ((rowBool tbl note cs).map (fun b => if b then (1 : ℚ) else 0))
  | [], _ => rfl
  | c :: cs, h => by
    have hc : tbl c ≠ none := h c (List.mem_cons_self _ _)
    cases htc : tbl c with
    | none => exact absurd htc hc
    | some ns =>
      have ih := rowEntries_eq_of_total tbl note cs
        (fun d hd => h d (List.mem_cons_of_mem _ hd))
      simp [rowEntries, rowBool, htc, ih]

lemma chord_notes_total : ∀ c ∈ hidden2_chords, CHORD_NOTES c ≠ none := by decide

lemma noteRows_eq_of_total (tbl : ChordTable)
    (h : ∀ c ∈ hidden2_chords, tbl c ≠ none) :
    ∀ ns : List PyStr,
      noteRows tbl ns = Except.ok (ns.map (fun note =>
        (rowBool tbl note hidden2_chords).map (fun b => if b then (1 : ℚ) else 0)))
  | [] => rfl
  | n :: ns => by
    have h1 := rowEntries_eq_of_total tbl n hidden2_chords h
    have ih := noteRows_eq_of_total tbl h ns
    simp [noteRows, h1, ih]

lemma chords_ok : chords_to_notes CHORD_NOTES = Except.ok rawRows := by
  unfold chords_to_notes
  rw [noteRows_eq_of_total CHORD_NOTES chord_notes_total (output_notes.drop 1)]
  rfl

lemma sum_if_nonneg (bs : List Bool) :
    0 ≤ (bs.map (fun b => if b then (1 : ℚ) else 0)).sum := by
  induction bs with
  | nil => simp
  | cons b bs ih => cases b <;> simp <;> linarith

lemma sum_if_pos (bs : List Bool) (h : true ∈ bs) :
    0 < (bs.map (fun b => if b then (1 : ℚ) else 0)).sum := by
  induction bs with
  | nil => simp at h
  | cons b bs ih =>
    rcases List.mem_cons.mp h with hb | hb
    · rw [hb.symm]
      have := sum_if_nonneg bs
      simp
      linarith
    · cases b
      · simpa using ih hb
      · have := sum_if_nonneg bs
        simp
        linarith

lemma qRow_any : ∀ note ∈ output_notes.drop 1,
    true ∈ rowBool CHORD_NOTES note hidden2_chords := by decide

lemma qRow_pos : ∀ note ∈ output_notes.drop 1, 0 < (qRow note).sum := by
  intro note hn
  exact sum_if_pos _ (qRow_any note hn)

lemma replicate_sum_84 : (List.replicate 84 (1 : ℚ)).sum = 84 := by
  rw [List.sum_replicate, nsmul_eq_mul]
  norm_num

lemma rawRows_sum_pos : ∀ r ∈ rawRows, 0 < r.sum := by
  intro r hr
  rcases List.mem_cons.mp hr with rfl | h
  · rw [replicate_sum_84]
    norm_num
  · obtain ⟨note, hn, rfl⟩ := List.mem_map.mp h
    exact qRow_pos note hn

lemma rawRows_length : rawRows.length = 145 := by decide

lemma sum_map_div_mul (l : List ℚ) (s w : ℚ) :
    (l.map (fun x => x / s * w)).sum = l.sum / s * w := by
  induction l with
  | nil => simp
  | cons x xs ih =>
    simp only [List.map_cons, List.sum_cons, ih]
    ring

/-- C1: every row of the chord-to-melody fixed weight matrix (all 145
rows, the rest row included) sums to the configured melody_weights
scale, and the per-row division during normalization never divides by
zero: every pre-normalization row sum is strictly positive, because
every non-rest note belongs to at least one chord and the rest row is
set for all 84 chords. -/
theorem C1_fixed_output_row_sums (melody_weights : ℚ) :
    ∃ raw scaled,
      chords_to_notes CHORD_NOTES = Except.ok raw ∧
      fixed_output_weights CHORD_NOTES melody_weights = Except.ok scaled ∧
      raw.length = 145 ∧ (∀ r ∈ raw, 0 < r.sum) ∧
      ∀ r ∈ scaled, r.sum = melody_weights := by
  refine ⟨rawRows,
    rawRows.map (fun r => r.map (fun x => x / r.sum * melody_weights)),
    chords_ok, ?_, rawRows_length, rawRows_sum_pos, ?_⟩
  · simp [fixed_output_weights, chords_ok]
  · intro r hr
    obtain ⟨r0, hr0, rfl⟩ := List.mem_map.mp hr
    rw [sum_map_div_mul, div_self (ne_of_gt (rawRows_sum_pos r0 hr0)), one_mul]

lemma output_note_classes : ∀ q < 12, ∀ c < 12,
    (output_notes.drop 1)[12 * q + c]? = some (chromatic_notes.getD q []) := by
  decide

/-- C10: in the chord-to-melody fixed weight matrix, the 12 rows of the
same chromatic pitch class (its 6 octave times 2 lifespan variants)
are identical, because membership is decided by the pitch-class name
alone. -/
theorem C10_identical_pitch_class_rows (raw : List (List ℚ))
    (h : chords_to_notes CHORD_NOTES = Except.ok raw)
    (p a b : ℕ) (hp : p < 12) (ha : a < 12) (hb : b < 12) :
    raw.getD (1 + 12 * p + a) [] = raw.getD (1 + 12 * p + b) [] := by
  rw [chords_ok] at h
  injection h with h
  subst h
  have key : ∀ c < 12, rawRows.getD (1 + 12 * p + c) [] =
      qRow (chromatic_notes.getD p []) := by
    intro c hc
    have hidx : 1 + 12 * p + c = (12 * p + c) + 1 := by omega
    rw [hidx]
    show ((output_notes.drop 1).map qRow).getD (12 * p + c) [] = _
    rw [List.getD_eq_getElem?_getD, List.getElem?_map,
      output_note_classes p hp c hc]
    rfl
  rw [key a ha, key b hb]

/-- Witness for C10 at the first pitch class: octave and lifespan
variants 0 and 11 of the note A give the same matrix row. -/
theorem C10_identical_pitch_class_rows_witness :
    rawRows.getD 1 [] = rawRows.getD 12 [] := by
  have h := C10_identical_pitch_class_rows rawRows chords_ok 0 0 11
    (by norm_num) (by norm_num) (by norm_num)
  simpa using h

lemma fixed_ok (mw : ℚ) :
    fixed_output_weights CHORD_NOTES mw =
      Except.ok (rawRows.map (fun r => r.map (fun x => x / r.sum * mw))) := by
  unfold fixed_output_weights
  rw [chords_ok]

lemma mk_ok (cw mw : ℚ) (init2 : Fin 84 → Fin 84 → ℚ) :
    mkMelodyNet CHORD_NOTES cw mw init2 = Except.ok
      { hidden2_from_chord := ⟨fill_diagonal init2 cw, true⟩,
        output := ⟨toMatrix (rawRows.map (fun r =>
          r.map (fun x => x / r.sum * mw))), false⟩ } := by
  unfold mkMelodyNet
  rw [fixed_ok]

/-- C3 counterexample: the chord-identity matrix is not exactly
diagonal.  With the (random) nn.Linear initialization taken to be all
ones and chord_weights 5, the constructed net has off-diagonal entry
(0, 1) equal to 1, not 0: fill_diagonal_ overwrites only the
diagonal. -/
theorem C3_chord_identity_counterexample :
    ∃ net, mkMelodyNet CHORD_NOTES 5 1 (fun _ _ => 1) = Except.ok net ∧
      net.hidden2_from_chord.weight 0 1 = 1 ∧ (1 : ℚ) ≠ 0 := by
  refine ⟨_, mk_ok 5 1 (fun _ _ => 1), ?_, by norm_num⟩
  show fill_diagonal (fun _ _ => 1) 5 0 1 = 1
  unfold fill_diagonal
  rw [if_neg (by decide : ¬ (0 : Fin 84) = 1)]

/-- C3 amended: after construction the diagonal of the chord-identity
matrix equals chord_weights, and every off-diagonal entry keeps its
arbitrary nn.Linear initialization (the learnable chord-to-other-chord
connections of the code docstring), rather than being 0. -/
theorem C3_chord_identity_amended (init2 : Fin 84 → Fin 84 → ℚ) (cw mw : ℚ) :
    ∃ net, mkMelodyNet CHORD_NOTES cw mw init2 = Except.ok net ∧
      (∀ i, net.hidden2_from_chord.weight i i = cw) ∧
      ∀ i j, i ≠ j → net.hidden2_from_chord.weight i j = init2 i j := by
  refine ⟨_, mk_ok cw mw init2, fun i => ?_, fun i j hij => ?_⟩
  · show fill_diagonal init2 cw i i = cw
    unfold fill_diagonal
    rw [if_pos rfl]
  · show fill_diagonal init2 cw i j = init2 i j
    unfold fill_diagonal
    rw [if_neg hij]

/-- Witness for C3 amended at the all-ones initialization with
chord_weights 5: entry (0, 0) is 5 and entry (1, 0) is 1. -/
theorem C3_chord_identity_amended_witness :
    ∃ net, mkMelodyNet CHORD_NOTES 5 1 (fun _ _ => 1) = Except.ok net ∧
      net.hidden2_from_chord.weight 0 0 = 5 ∧
      net.hidden2_from_chord.weight 1 0 = 1 := by
  obtain ⟨net, hnet, hd, ho⟩ := C3_chord_identity_amended (fun _ _ => 1) 5 1
  exact ⟨net, hnet, hd 0, ho 1 0 (by decide)⟩

/-- C4: the code sets requires_grad to false on the output matrix only;
the chord-to-hidden2 parameter keeps the nn.Linear default
requires_grad = true, so an ordinary optimizer step (here lr 1 with a
unit gradient) mutates the fixed chord-identity diagonal, moving entry
(0, 0) from chord_weights = 2 to 1, while the output matrix is left
untouched by the same step. -/
theorem C4_frozen_weights_bug :
    ∃ net, mkMelodyNet CHORD_NOTES 2 1 (fun _ _ => 0) = Except.ok net ∧
      net.hidden2_from_chord.requires_grad = true ∧
      net.output.requires_grad = false ∧
      net.hidden2_from_chord.weight 0 0 = 2 ∧
      (sgd_step 1 (fun _ _ => 1) net.hidden2_from_chord).weight 0 0 = 1 ∧
      sgd_step 1 (fun _ _ => 1) net.output = net.output := by
  refine ⟨_, mk_ok 2 1 (fun _ _ => 0), rfl, rfl, ?_, ?_, rfl⟩
  · show fill_diagonal (fun _ _ => 0) 2 0 0 = 2
    unfold fill_diagonal
    rw [if_pos rfl]
  · show (sgd_step 1 (fun _ _ => 1) ⟨fill_diagonal (fun _ _ => 0) 2, true⟩).weight 0 0 = 1
    unfold sgd_step fill_diagonal
    norm_num

/-!  C6: failure on a table missing a chord entry. -/

/-- A table missing exactly the chord label Amaj. -/
def missing_table : ChordTable :=
  fun c => if c == ['A', 'm', 'a', 'j'] then none else CHORD_NOTES c

/-- C6 counterexample: on a table missing the Amaj entry, construction
fails with a TypeError (the code iterates the None returned by
CHORD_NOTES.get), not with a ConfigurationError; no such error class
exists in the code. -/
theorem C6_error_class_counterexample :
    fixed_output_weights missing_table 1 = Except.error PyError.typeError ∧
    fixed_output_weights missing_table 1 ≠ Except.error PyError.configurationError := by
  constructor <;> decide

lemma rowEntries_error (tbl : ChordTable) (note : PyStr) :
    ∀ cs : List PyStr, (∃ c ∈ cs, tbl c = none) →
      rowEntries tbl note cs = Except.error PyError.typeError
  | [], h => absurd h (by simp)
  | c :: cs, h => by
    cases htc : tbl c with
    | none => simp [rowEntries, htc]
    | some ns =>
      have hex : ∃ d ∈ cs, tbl d = none := by
        obtain ⟨d, hd, hdn⟩ := h
        rcases List.mem_cons.mp hd with rfl | hd2
        · rw [htc] at hdn
          cases hdn
        · exact ⟨d, hd2, hdn⟩
      simp [rowEntries, htc, rowEntries_error tbl note cs hex]

/-- C6 amended: if the table is missing an entry for any of the 84
chord labels, construction fails (raising a TypeError when the None is
iterated) rather than producing a partially-filled matrix; the error
is not the ConfigurationError the spec names. -/
theorem C6_missing_entry_fails (tbl : ChordTable) (mw : ℚ)
    (h : ∃ c ∈ hidden2_chords, tbl c = none) :
    fixed_output_weights tbl mw = Except.error PyError.typeError := by
  have hfirst : rowEntries tbl (output_notes.getD 1 []) hidden2_chords =
      Except.error PyError.typeError := rowEntries_error tbl _ hidden2_chords h
  have hdrop : output_notes.drop 1 = output_notes.getD 1 [] :: output_notes.drop 2 := by
    decide
  have h1 : noteRows tbl (output_notes.drop 1) = Except.error PyError.typeError := by
    rw [hdrop]
    simp only [noteRows]
    rw [hfirst]
  unfold fixed_output_weights chords_to_notes
  rw [h1]

/-- Witness for C6 amended on the table missing Amaj. -/
theorem C6_missing_entry_fails_witness :
    fixed_output_weights missing_table 2 = Except.error PyError.typeError :=
  C6_missing_entry_fails missing_table 2 ⟨['A', 'm', 'a', 'j'], by decide, by decide⟩

/-!  C5: the width and layout of the concatenated driver input. -/

/-- C5 counterexample: at the first timestep of a run (the driver state
is the all-zero 145-vector, the symbol a recognized C with octave 4 and
lifespan 0, the meter phase that of timestep 0), the concatenated
input is not 245-wide: the driver concatenates 145 + 12 + 2 = 159
entries and pads nothing. -/
theorem C5_width_counterexample :
    (driver_inputs (List.replicate 145 (0 : ℚ))
      (note_input ['C', '-', '4', '0']) (meter_units 0)).length ≠ 245 := by
  decide

/-- C5 amended: the concatenated input of a timestep is 159-wide (not
245-wide): the 12-dimensional melody one-hot sits at offsets 145 to
156, directly after the 145 state entries, and the 2-valued meter
encoding at offsets 157 to 158; no zero filling widens the melody part
to the declared 84-wide chord slice or the meter part to the declared
16-wide meter slice. -/
theorem C5_driver_input_layout (state_units input_t meter : List ℚ)
    (h1 : state_units.length = 145) (h2 : input_t.length = 12)
    (h3 : meter.length = 2) :
    (driver_inputs state_units input_t meter).length = 159 ∧
    (∀ k, k < 12 →
      (driver_inputs state_units input_t meter).getD (145 + k) 0 = input_t.getD k 0) ∧
    (∀ j, j < 2 →
      (driver_inputs state_units input_t meter).getD (157 + j) 0 = meter.getD j 0) := by
  unfold driver_inputs
  refine ⟨by simp [h1, h2, h3], fun k hk => ?_, fun j hj => ?_⟩
  · rw [List.getD_eq_getElem?_getD, List.append_assoc,
      List.getElem?_append_right (by omega : state_units.length ≤ 145 + k)]
    have hidx : 145 + k - state_units.length = k := by omega
    rw [hidx, List.getElem?_append_left (by omega : k < input_t.length),
      List.getD_eq_getElem?_getD]
  · rw [List.getD_eq_getElem?_getD, List.append_assoc,
      List.getElem?_append_right (by omega : state_units.length ≤ 157 + j)]
    have hidx : 157 + j - state_units.length = 12 + j := by omega
    rw [hidx, List.getElem?_append_right (by omega : input_t.length ≤ 12 + j)]
    have hidx2 : 12 + j - input_t.length = j := by omega
    rw [hidx2, List.getD_eq_getElem?_getD]

/-- Witness for C5 amended at the zero state, an all-zero melody slot
and the meter phase of timestep 1. -/
theorem C5_driver_input_layout_witness :
    (driver_inputs (List.replicate 145 (0 : ℚ)) (List.replicate 12 0)
      (meter_units 1)).length = 159 :=
  (C5_driver_input_layout (List.replicate 145 0) (List.replicate 12 0)
    (meter_units 1) (by decide) (by decide) (by decide)).1

/-!  C7: handling of malformed and unrecognized melody symbols. -/

/-- C7 counterexample: a wrong-length symbol whose two-character
pitch-class code is recognized makes the driver raise an IndexError
when it evaluates the character at index 2 for the playback string, so
a malformed symbol is not always tolerated silently. -/
theorem C7_short_symbol_counterexample :
    note_str ['C', '-'] = Except.error PyError.indexError := by
  decide

/-- C7 amended: a symbol whose two-character pitch-class code is
unrecognized is tolerated silently, whatever its length or format: the
melody input falls back to the all-zero 12-vector and the playback
note is None, with no exception; but a wrong-length symbol with a
recognized code raises an IndexError (see the counterexample). -/
theorem C7_unrecognized_tolerated (note : PyStr)
    (h1 : NOTE_ENC_TO_IDX_REF (note.take 2) = none)
    (h2 : NOTE_ENC_TO_NOTE_STR_REF (note.take 2) = none) :
    note_input note = List.replicate 12 0 ∧ note_str note = Except.ok none := by
  constructor
  · unfold note_input
    rw [h1]
  · unfold note_str
    rw [h2]

/-- Witness for C7 amended at an unrecognized one-character symbol. -/
theorem C7_unrecognized_tolerated_witness :
    note_input ['Z'] = List.replicate 12 0 ∧ note_str ['Z'] = Except.ok none :=
  C7_unrecognized_tolerated ['Z'] (by decide) (by decide)

/-!  C8: the emitted chord label of a timestep. -/

lemma argmaxAux_le (xs : List ℚ) : ∀ (i besti : ℕ) (bestv : ℚ),
    (∀ x ∈ xs, x ≤ bestv) → argmaxAux xs i besti bestv = besti := by
  induction xs with
  | nil => intro i besti bestv _; rfl
  | cons x xs ih =>
    intro i besti bestv h
    unfold argmaxAux
    rw [if_neg (not_lt.mpr (h x (List.mem_cons_self _ _)))]
    exact ih _ _ _ (fun y hy => h y (List.mem_cons_of_mem _ hy))

lemma argmaxAux_zero_run (m : ℕ) : ∀ (k i besti : ℕ),
    argmaxAux (List.replicate k (0 : ℚ) ++ (1 : ℚ) :: List.replicate m 0)
      i besti 0 = i + k := by
  intro k
  induction k with
  | zero =>
    intro i besti
    show argmaxAux ((1 : ℚ) :: List.replicate m 0) i besti 0 = i + 0
    unfold argmaxAux
    rw [if_pos (by norm_num : (0 : ℚ) < 1)]
    rw [argmaxAux_le _ _ _ _ (fun y hy => by
      rw [List.eq_of_mem_replicate hy]; norm_num)]
    omega
  | succ k ih =>
    intro i besti
    rw [List.replicate_succ, List.cons_append]
    unfold argmaxAux
    rw [if_neg (lt_irrefl 0)]
    rw [ih (i + 1) besti]
    omega

/-- 145-wide logits whose first maximum sits at index 100. -/
def badLogits : List ℚ := List.replicate 100 0 ++ 1 :: List.replicate 44 0

lemma badLogits_argmax : argmax badLogits = 100 := by
  unfold badLogits
  rw [show (100 : ℕ) = 99 + 1 from rfl, List.replicate_succ, List.cons_append]
  show argmaxAux (List.replicate 99 (0 : ℚ) ++ (1 : ℚ) :: List.replicate 44 0) 1 0 0 = 99 + 1
  rw [argmaxAux_zero_run]

/-- C8 counterexample: the emitted chord label can be absent.  On
145-wide logits whose argmax is 100 (the network output is 145-wide
while the ChordClass index table has 84 entries), the .get lookup of
the decoded index yields None, so the timestep emits no chord label. -/
theorem C8_absent_label_counterexample :
    badLogits.length = 145 ∧ chord_out badLogits = none := by
  constructor
  · decide
  · unfold chord_out
    rw [badLogits_argmax]
    decide

/-- C8 amended: every timestep performs exactly one argmax and one
index-table lookup, and the emitted chord label is present exactly
when the argmax index falls inside the 84-entry ChordClass table;
logits whose argmax is 84 or larger (possible with the 145-wide
output) emit None instead. -/
theorem C8_chord_label_amended (logits : List ℚ) (h : argmax logits < 84) :
    ∃ s, chord_out logits = some s := by
  unfold chord_out IDX_TO_CHORD_STR_REF
  have hlen : hidden2_chords.length = 84 := by decide
  have hlt : argmax logits < hidden2_chords.length := by omega
  exact ⟨hidden2_chords[argmax logits], by
    rw [List.get?_eq_getElem?]
    exact List.getElem?_eq_getElem hlt⟩

/-- 145-wide logits whose first maximum sits at index 0. -/
def goodLogits : List ℚ := 1 :: List.replicate 144 0

lemma goodLogits_argmax : argmax goodLogits = 0 := by
  show argmaxAux (List.replicate 144 (0 : ℚ)) 1 0 1 = 0
  exact argmaxAux_le _ _ _ _ (fun y hy => by
    rw [List.eq_of_mem_replicate hy]
    norm_num)

/-- Witness for C8 amended at logits with argmax 0. -/
theorem C8_chord_label_amended_witness :
    ∃ s, chord_out goodLogits = some s :=
  C8_chord_label_amended goodLogits (by rw [goodLogits_argmax]; norm_num)

/-!  C2 and C9: the state recurrence. -/

lemma sum_e_pos (e : ℚ → ℚ) (he : ∀ x, 0 < e x) {n : ℕ} (hn : 0 < n)
    (v : Fin n → ℚ) : 0 < ∑ j, e (v j) := by
  have : Nonempty (Fin n) := ⟨⟨0, hn⟩⟩
  exact Finset.sum_pos (fun i _ => he (v i)) Finset.univ_nonempty

lemma softmax_nonneg (e : ℚ → ℚ) (he : ∀ x, 0 < e x) {n : ℕ}
    (v : Fin n → ℚ) (i : Fin n) : 0 ≤ softmax e v i :=
  div_nonneg (he (v i)).le (sum_e_pos e he i.pos v).le

lemma softmax_sum_one (e : ℚ → ℚ) (he : ∀ x, 0 < e x) {n : ℕ} (hn : 0 < n)
    (v : Fin n → ℚ) : ∑ i, softmax e v i = 1 := by
  unfold softmax
  rw [← Finset.sum_div]
  exact div_self (ne_of_gt (sum_e_pos e he hn v))

lemma pre_sum_pos (e : ℚ → ℚ) (he : ∀ x, 0 < e x) {n : ℕ} (hn : 0 < n)
    (decay : ℚ) (hd : 0 ≤ decay) (state logits : Fin n → ℚ)
    (hs : ∀ i, 0 ≤ state i) :
    0 < ∑ j, (softmax e logits j + decay * state j) := by
  have h1 : ∑ j, (softmax e logits j + decay * state j) =
      1 + decay * ∑ j, state j := by
    rw [Finset.sum_add_distrib, softmax_sum_one e he hn logits, ← Finset.mul_sum]
  have h2 : 0 ≤ ∑ j, state j := Finset.sum_nonneg (fun i _ => hs i)
  have h3 : 0 ≤ decay * ∑ j, state j := mul_nonneg hd h2
  rw [h1]
  linarith

lemma state_update_nonneg (e : ℚ → ℚ) (he : ∀ x, 0 < e x) {n : ℕ}
    (decay : ℚ) (hd : 0 ≤ decay) (state logits : Fin n → ℚ)
    (hs : ∀ i, 0 ≤ state i) (i : Fin n) :
    0 ≤ state_update e decay state logits i :=
  div_nonneg
    (add_nonneg (softmax_nonneg e he logits i) (mul_nonneg hd (hs i)))
    (pre_sum_pos e he i.pos decay hd state logits hs).le

lemma state_update_sum_one (e : ℚ → ℚ) (he : ∀ x, 0 < e x) {n : ℕ} (hn : 0 < n)
    (decay : ℚ) (hd : 0 ≤ decay) (state logits : Fin n → ℚ)
    (hs : ∀ i, 0 ≤ state i) :
    ∑ i, state_update e decay state logits i = 1 := by
  unfold state_update
  rw [← Finset.sum_div]
  exact div_self (ne_of_gt (pre_sum_pos e he hn decay hd state logits hs))

lemma play_states_nonneg (e : ℚ → ℚ) (he : ∀ x, 0 < e x) {n : ℕ}
    (f : ℕ → (Fin n → ℚ) → Fin n → ℚ) (decay : ℚ) (hd : 0 ≤ decay) :
    ∀ t i, 0 ≤ play_states e f decay t i
  | 0, _ => le_refl 0
  | t + 1, i =>
    state_update_nonneg e he decay hd _ _
      (play_states_nonneg e he f decay hd t) i

/-- C2: for every timestep t of a recurrence run with a positive
embedded exponential and decay constant in the interval from 0
inclusive to 1 exclusive, the state vector after the update of
timestep t is non-negative and sums to exactly 1, and the sum the
update divides by is strictly positive, so the renormalization is
well-defined. -/
theorem C2_state_distribution (e : ℚ → ℚ)
    (f : ℕ → (Fin 145 → ℚ) → Fin 145 → ℚ) (decay : ℚ)
    (he : ∀ x, 0 < e x) (hd0 : 0 ≤ decay) (hd1 : decay < 1) (t : ℕ) :
    (∀ i, 0 ≤ play_states e f decay (t + 1) i) ∧
    (∑ i, play_states e f decay (t + 1) i) = 1 ∧
    0 < ∑ j, (softmax e (f t (play_states e f decay t)) j +
      decay * play_states e f decay t j) := by
  refine ⟨play_states_nonneg e he f decay hd0 (t + 1), ?_, ?_⟩
  · exact state_update_sum_one e he (by norm_num) decay hd0 _ _
      (play_states_nonneg e he f decay hd0 t)
  · exact pre_sum_pos e he (by norm_num) decay hd0 _ _
      (play_states_nonneg e he f decay hd0 t)

/-- The constant-one stand-in for the embedded exponential, used by the
recurrence witnesses. -/
def constOne : ℚ → ℚ := fun _ => 1

/-- The all-zero logits function, used by the recurrence witnesses. -/
def zeroLogits : ℕ → (Fin 145 → ℚ) → Fin 145 → ℚ := fun _ _ _ => 0

/-- Witness for C2 after the first update of a run with decay one
half. -/
theorem C2_state_distribution_witness :
    (∀ i, 0 ≤ play_states constOne zeroLogits (1 / 2) 1 i) ∧
    (∑ i, play_states constOne zeroLogits (1 / 2) 1 i) = 1 ∧
    0 < ∑ j, (softmax constOne (zeroLogits 0 (play_states constOne zeroLogits (1 / 2) 0)) j +
      (1 / 2) * play_states constOne zeroLogits (1 / 2) 0 j) :=
  C2_state_distribution constOne zeroLogits (1 / 2)
    (fun _ => one_pos) (by norm_num) (by norm_num) 0

/-- C9: with decay constant 0, the state vector after the update of any
timestep equals exactly the softmax of the logits of that timestep,
independent of the previous state. -/
theorem C9_zero_decay (e : ℚ → ℚ) (f : ℕ → (Fin 145 → ℚ) → Fin 145 → ℚ)
    (he : ∀ x, 0 < e x) (t : ℕ) :
    play_states e f 0 (t + 1) = softmax e (f t (play_states e f 0 t)) := by
  funext i
  show state_update e 0 _ _ i = _
  unfold state_update
  simp only [zero_mul, add_zero]
  rw [softmax_sum_one e he (by norm_num : (0 : ℕ) < 145)]
  exact div_one _

/-- Witness for C9 at the first timestep of a zero-decay run. -/
theorem C9_zero_decay_witness :
    play_states constOne zeroLogits 0 1 =
      softmax constOne (zeroLogits 0 (play_states constOne zeroLogits 0 0)) :=
  C9_zero_decay constOne zeroLogits (fun _ => one_pos) 0

end Harmonizer
